import Mathlib

/-!
Verification of the core of the `casal-em-dias` household-budget tracker.

The development shallowly embeds the data model and the operations of
`src/services/financeService.ts` and `src/App.tsx`:

* pure calculators (`calculateTotals`, `calculateAccumulatedSavings`,
  `generateMonthId`);
* the reconciliation engine (`FinanceAPI.getMonths`, `FinanceAPI.saveMonth`,
  `FinanceAPI.saveMonths`) against an explicit model of the Supabase store
  (two tables plus a fresh-id supply), with per-remote-call failure flags
  standing for the `error` results Supabase can return;
* the UI-level month-collection handlers of `App.tsx` and the debounce
  scheduler.

Numbers are modelled as `Int` (the TS code uses JS numbers; the claims under
verification are algebraic identities about the computations, not about
floating-point rounding).
-/

namespace Casal

/-- Database identifier: expenses created in the client carry a
client-generated uuid (`client`), expense rows inserted without an explicit
id receive a store-generated uuid, modelled as a counter value (`server`).
Month row ids (`months.id` uuid column) are modelled as plain `Nat` counters. -/
inductive DbId where
| client (s : String)
| server (n : Nat)
deriving DecidableEq

/-- `'fixed' | 'variable'` from `types.ts`. -/
inductive ExpenseType where
| fixed
| variable'
deriving DecidableEq

/-- `Expense` from `types.ts`. -/
structure Expense where
  id : DbId
  name : String
  value : Int
  category : String
  date : String
  type : ExpenseType
deriving DecidableEq

/-- `MonthData` from `types.ts`. -/
structure MonthData where
  id : String
  label : String
  salary1 : Int
  salary2 : Int
  expenses : List Expense
  closed : Bool
deriving DecidableEq

/-- The record returned by `calculateTotals`. -/
structure Totals where
  income : Int
  fixed : Int
  variable' : Int
  totalExpenses : Int
  balance : Int
deriving DecidableEq

/-- `calculateTotals` from `financeService.ts` (lines 25-40): absent input
yields the all-zero record; otherwise income, the two filtered expense sums,
their total and the balance. -/
def calculateTotals : Option MonthData → Totals
| none => { income := 0, fixed := 0, variable' := 0, totalExpenses := 0, balance := 0 }
| some monthData =>
  let income := monthData.salary1 + monthData.salary2
  let fixed := (monthData.expenses.filter fun e => decide (e.type = ExpenseType.fixed)).foldl
    (fun acc curr => acc + curr.value) 0
  let variable' := (monthData.expenses.filter fun e => decide (e.type = ExpenseType.variable')).foldl
    (fun acc curr => acc + curr.value) 0
  let totalExpenses := fixed + variable'
  let balance := income - totalExpenses
  { income := income, fixed := fixed, variable' := variable',
    totalExpenses := totalExpenses, balance := balance }

/-- `calculateAccumulatedSavings` from `financeService.ts` (lines 42-49):
filter to closed months, add up the positive balances. -/
def calculateAccumulatedSavings (months : List MonthData) : Int :=
  (months.filter fun m => m.closed).foldl
    (fun acc m =>
      acc + (if (calculateTotals (some m)).balance > 0 then (calculateTotals (some m)).balance else 0))
    0

theorem foldl_add_value (l : List Expense) (init : Int) :
    l.foldl (fun acc curr => acc + curr.value) init = init + (l.map Expense.value).sum := by
  induction l generalizing init with
  | nil => simp
  | cons a t ih => simp [List.foldl_cons, ih]; ring

theorem foldl_add_posbal (l : List MonthData) (init : Int) :
    l.foldl
      (fun acc m =>
        acc + (if (calculateTotals (some m)).balance > 0 then (calculateTotals (some m)).balance else 0))
      init
    = init + (l.map fun m => max (calculateTotals (some m)).balance 0).sum := by
  induction l generalizing init with
  | nil => simp
  | cons a t ih =>
    simp only [List.foldl_cons, List.map_cons, List.sum_cons, ih]
    have hmax : max (calculateTotals (some a)).balance 0
        = if (calculateTotals (some a)).balance > 0 then (calculateTotals (some a)).balance else 0 := by
      rcases le_or_lt (calculateTotals (some a)).balance 0 with h | h
      · simp [max_eq_right h, not_lt.mpr h]
      · simp [max_eq_left (le_of_lt h), h]
    rw [hmax]; ring

theorem accumulatedSavings_eq_sum (months : List MonthData) :
    calculateAccumulatedSavings months
      = ((months.filter fun m => m.closed).map fun m => max (calculateTotals (some m)).balance 0).sum := by
  unfold calculateAccumulatedSavings
  rw [foldl_add_posbal]; ring

/-- C1: for every month, `calculateTotals` returns income equal to the two
salaries' sum, `fixed` and `variable` equal to the sums of the values of the
expenses of the corresponding type, `totalExpenses = fixed + variable`, and
`balance = income - totalExpenses`; on absent input it returns the all-zero
record (and, being a total function, it never fails). -/
theorem calculateTotals_spec :
    (∀ m : MonthData,
      (calculateTotals (some m)).income = m.salary1 + m.salary2 ∧
      (calculateTotals (some m)).fixed
        = ((m.expenses.filter fun e => decide (e.type = ExpenseType.fixed)).map Expense.value).sum ∧
      (calculateTotals (some m)).variable'
        = ((m.expenses.filter fun e => decide (e.type = ExpenseType.variable')).map Expense.value).sum ∧
      (calculateTotals (some m)).totalExpenses
        = (calculateTotals (some m)).fixed + (calculateTotals (some m)).variable' ∧
      (calculateTotals (some m)).balance
        = (calculateTotals (some m)).income - (calculateTotals (some m)).totalExpenses) ∧
    calculateTotals none = { income := 0, fixed := 0, variable' := 0, totalExpenses := 0, balance := 0 } := by
  constructor
  · intro m
    refine ⟨rfl, ?_, ?_, rfl, rfl⟩
    · show (m.expenses.filter _).foldl _ 0 = _
      rw [foldl_add_value]; ring
    · show (m.expenses.filter _).foldl _ 0 = _
      rw [foldl_add_value]; ring
  · rfl

/-- C4: `calculateAccumulatedSavings` is the sum of `max(balance, 0)` over the
closed months, it is invariant under permutations of the collection, and
inserting (or removing) a non-closed month anywhere leaves it unchanged. -/
theorem calculateAccumulatedSavings_spec :
    (∀ months : List MonthData,
      calculateAccumulatedSavings months
        = ((months.filter fun m => m.closed).map fun m => max (calculateTotals (some m)).balance 0).sum) ∧
    (∀ l1 l2 : List MonthData, l1.Perm l2 →
      calculateAccumulatedSavings l1 = calculateAccumulatedSavings l2) ∧
    (∀ m : MonthData, m.closed = false → ∀ pre post : List MonthData,
      calculateAccumulatedSavings (pre ++ m :: post) = calculateAccumulatedSavings (pre ++ post)) := by
  refine ⟨accumulatedSavings_eq_sum, ?_, ?_⟩
  · intro l1 l2 hperm
    rw [accumulatedSavings_eq_sum, accumulatedSavings_eq_sum]
    exact ((hperm.filter _).map _).sum_eq
  · intro m hm pre post
    rw [accumulatedSavings_eq_sum, accumulatedSavings_eq_sum]
    simp [List.filter_append, hm]

/-- Decimal digit characters of `n`, most significant first, computed with
explicit fuel so that the definition is structurally recursive (the fuel is
irrelevant as soon as it dominates the argument, see `natToCharsAux_congr`).
This is the embedding of the JS number-to-string conversion performed by the
template literal in `generateMonthId`. -/
def natToCharsAux : Nat → Nat → List Char
| 0, _ => []
| fuel + 1, n =>
  if n < 10 then [Nat.digitChar n]
  else natToCharsAux fuel (n / 10) ++ [Nat.digitChar (n % 10)]

/-- Decimal representation of `n` as a character list. -/
def natToChars (n : Nat) : List Char := natToCharsAux (n + 1) n

theorem natToCharsAux_congr :
    ∀ n f g : Nat, n ≤ f → n ≤ g → natToCharsAux (f + 1) n = natToCharsAux (g + 1) n := by
  intro n
  induction n using Nat.strong_induction_on with
  | _ n ih =>
    intro f g hf hg
    by_cases h10 : n < 10
    · simp [natToCharsAux, h10]
    · have hn1 : 1 ≤ n := by omega
      have hdiv : n / 10 < n := Nat.div_lt_self (by omega) (by omega)
      have hf1 : 1 ≤ f := by omega
      have hg1 : 1 ≤ g := by omega
      have ef : f = (f - 1) + 1 := by omega
      have eg : g = (g - 1) + 1 := by omega
      have hdf : n / 10 ≤ f - 1 := by omega
      have hdg : n / 10 ≤ g - 1 := by omega
      simp only [natToCharsAux, if_neg h10]
      rw [ef, eg, ih (n / 10) hdiv (f - 1) (g - 1) hdf hdg]

theorem natToChars_eq (n : Nat) :
    natToChars n
      = if n < 10 then [Nat.digitChar n]
        else natToChars (n / 10) ++ [Nat.digitChar (n % 10)] := by
  by_cases h10 : n < 10
  · simp [natToChars, natToCharsAux, h10]
  · have hn1 : 1 ≤ n := by omega
    have en : n = (n - 1) + 1 := by omega
    have hdiv : n / 10 < n := Nat.div_lt_self (by omega) (by omega)
    show natToCharsAux (n + 1) n = _
    simp only [natToCharsAux, if_neg h10]
    rw [show natToCharsAux n (n / 10) = natToCharsAux ((n - 1) + 1) (n / 10) by rw [← en]]
    rw [natToCharsAux_congr (n / 10) (n - 1) (n / 10) (by omega) (le_refl _)]
    simp [natToChars]

theorem natToChars_single {n : Nat} (h : n < 10) : natToChars n = [Nat.digitChar n] := by
  rw [natToChars_eq, if_pos h]

theorem natToChars_length_pos (n : Nat) : 0 < (natToChars n).length := by
  rw [natToChars_eq]
  by_cases h : n < 10 <;> simp [h]

theorem natToChars_length_step {n : Nat} (h : 10 ≤ n) :
    (natToChars n).length = (natToChars (n / 10)).length + 1 := by
  rw [natToChars_eq, if_neg (by omega)]
  simp

theorem natToChars_length_four {y : Nat} (h1 : 1000 ≤ y) (h2 : y ≤ 9999) :
    (natToChars y).length = 4 := by
  have s1 : (natToChars y).length = (natToChars (y / 10)).length + 1 :=
    natToChars_length_step (by omega)
  have s2 : (natToChars (y / 10)).length = (natToChars (y / 10 / 10)).length + 1 :=
    natToChars_length_step (by omega)
  have s3 : (natToChars (y / 10 / 10)).length = (natToChars (y / 10 / 10 / 10)).length + 1 :=
    natToChars_length_step (by omega)
  have s4 : natToChars (y / 10 / 10 / 10) = [Nat.digitChar (y / 10 / 10 / 10)] :=
    natToChars_single (by omega)
  rw [s1, s2, s3, s4]
  rfl

theorem digitChar_mono :
    ∀ a : Nat, a < 10 → ∀ b : Nat, b < 10 → a < b → Nat.digitChar a < Nat.digitChar b := by
  decide

theorem lex_append_of_lt :
    ∀ {l1 l2 : List Char}, List.Lex (· < ·) l1 l2 → l1.length = l2.length →
      ∀ t1 t2 : List Char, List.Lex (· < ·) (l1 ++ t1) (l2 ++ t2) := by
  intro l1 l2 h
  induction h with
  | nil => intro hlen; simp at hlen
  | cons _ ih =>
    intro hlen t1 t2
    exact List.Lex.cons (ih (by simpa using hlen) t1 t2)
  | rel hab => intro _ t1 t2; exact List.Lex.rel hab

theorem lex_append_left :
    ∀ (l : List Char) {t1 t2 : List Char},
      List.Lex (· < ·) t1 t2 → List.Lex (· < ·) (l ++ t1) (l ++ t2) := by
  intro l
  induction l with
  | nil => intro t1 t2 h; simpa using h
  | cons a as ih =>
    intro t1 t2 h
    exact List.Lex.cons (ih h)

theorem natToChars_lt :
    ∀ n2 n1 : Nat, n1 < n2 → (natToChars n1).length = (natToChars n2).length →
      List.Lex (· < ·) (natToChars n1) (natToChars n2) := by
  intro n2
  induction n2 using Nat.strong_induction_on with
  | _ n2 ih =>
    intro n1 hlt hlen
    by_cases h2 : n2 < 10
    · have h1 : n1 < 10 := by omega
      rw [natToChars_single h1, natToChars_single h2]
      exact List.Lex.rel (digitChar_mono n1 h1 n2 h2 hlt)
    · by_cases h1 : n1 < 10
      · exfalso
        have e1 : (natToChars n1).length = 1 := by rw [natToChars_single h1]; rfl
        have e2 := natToChars_length_step (n := n2) (by omega)
        have := natToChars_length_pos (n2 / 10)
        omega
      · have e1 := natToChars_eq n1
        have e2 := natToChars_eq n2
        rw [if_neg h1] at e1
        rw [if_neg h2] at e2
        have hlen' : (natToChars (n1 / 10)).length = (natToChars (n2 / 10)).length := by
          have s1 := natToChars_length_step (n := n1) (by omega)
          have s2 := natToChars_length_step (n := n2) (by omega)
          omega
        have hqle : n1 / 10 ≤ n2 / 10 := Nat.div_le_div_right (le_of_lt hlt)
        rcases lt_or_eq_of_le hqle with hq | hq
        · rw [e1, e2]
          exact lex_append_of_lt
            (ih (n2 / 10) (Nat.div_lt_self (by omega) (by omega)) (n1 / 10) hq hlen')
            hlen' _ _
        · have hmod : n1 % 10 < n2 % 10 := by omega
          rw [e1, e2, hq]
          exact lex_append_left _
            (List.Lex.rel
              (digitChar_mono (n1 % 10) (Nat.mod_lt _ (by omega)) (n2 % 10)
                (Nat.mod_lt _ (by omega)) hmod))

/-- A calendar date as observed through the JS `Date` accessors used by the
code: `getFullYear()` and the 0-based `getMonth()` (always in `0..11`), plus
the day of month (unused by `generateMonthId`). -/
structure JSDate where
  year : Nat
  month : Fin 12
  day : Nat
deriving DecidableEq

/-- `String.prototype.padStart(len, c)` on a character list: prepend copies of
`c` until the target length is reached (no-op when already long enough). -/
def padStartChars (len : Nat) (c : Char) (l : List Char) : List Char :=
  List.replicate (len - l.length) c ++ l

/-- `generateMonthId` from `financeService.ts` (lines 19-23): the year's
decimal string, a hyphen, and the 1-based month zero-padded to two digits. -/
def generateMonthId (date : JSDate) : String :=
  String.mk (natToChars date.year ++ ['-'] ++ padStartChars 2 '0' (natToChars (date.month.val + 1)))

theorem stringMk_lt_iff {l1 l2 : List Char} :
    String.mk l1 < String.mk l2 ↔ List.Lex (· < ·) l1 l2 :=
  String.lt_iff_toList_lt

theorem paddedMonth_lt :
    ∀ a : Nat, a < 12 → ∀ b : Nat, b < 12 → a < b →
      List.Lex (· < ·) (padStartChars 2 '0' (natToChars (a + 1)))
        (padStartChars 2 '0' (natToChars (b + 1))) := by
  decide

theorem paddedMonth_length :
    ∀ a : Nat, a < 12 → (padStartChars 2 '0' (natToChars (a + 1))).length = 2 := by
  decide

/-- C6 (amended): for dates in the same calendar month of the same year the
generated ids coincide; and for dates with four-digit years (1000-9999), the
id of the chronologically earlier of two dates lying in different calendar
months is strictly smaller in the lexicographic string order. (The amendment
restricts the ordering part to four-digit years: the code does not zero-pad
the year, so e.g. year 999 renders as "999" and compares above "1000".) -/
theorem generateMonthId_spec :
    (∀ d1 d2 : JSDate, d1.year = d2.year → d1.month = d2.month →
      generateMonthId d1 = generateMonthId d2) ∧
    (∀ d1 d2 : JSDate, 1000 ≤ d1.year → d1.year ≤ 9999 → 1000 ≤ d2.year → d2.year ≤ 9999 →
      (d1.year < d2.year ∨ (d1.year = d2.year ∧ d1.month < d2.month)) →
      generateMonthId d1 < generateMonthId d2) := by
  constructor
  · intro d1 d2 hy hm
    unfold generateMonthId
    rw [hy, hm]
  · intro d1 d2 hy1 hy1' hy2 hy2' horder
    unfold generateMonthId
    rw [stringMk_lt_iff]
    rcases horder with hy | ⟨hy, hm⟩
    · have hlen : (natToChars d1.year).length = (natToChars d2.year).length := by
        rw [natToChars_length_four hy1 hy1', natToChars_length_four hy2 hy2']
      simpa [List.append_assoc] using
        lex_append_of_lt (natToChars_lt d2.year d1.year hy hlen) hlen
          (['-'] ++ padStartChars 2 '0' (natToChars (d1.month.val + 1)))
          (['-'] ++ padStartChars 2 '0' (natToChars (d2.month.val + 1)))
    · rw [hy]
      have := paddedMonth_lt d1.month.val d1.month.isLt d2.month.val d2.month.isLt hm
      simpa [List.append_assoc] using
        lex_append_left (natToChars d2.year ++ ['-']) this

/-- C6 witness: the amended ordering statement at "2024-12" versus "2025-01",
and the identity statement on two dates inside the same month. -/
theorem generateMonthId_spec_witness :
    generateMonthId ⟨2024, ⟨11, by decide⟩, 15⟩ < generateMonthId ⟨2025, ⟨0, by decide⟩, 3⟩ ∧
    generateMonthId ⟨2025, ⟨2, by decide⟩, 1⟩ = generateMonthId ⟨2025, ⟨2, by decide⟩, 28⟩ := by
  constructor
  · exact generateMonthId_spec.2 ⟨2024, ⟨11, by decide⟩, 15⟩ ⟨2025, ⟨0, by decide⟩, 3⟩
      (by decide) (by decide) (by decide) (by decide) (Or.inl (by decide))
  · exact generateMonthId_spec.1 ⟨2025, ⟨2, by decide⟩, 1⟩ ⟨2025, ⟨2, by decide⟩, 28⟩ rfl rfl

/-- C6 counterexample: December 999 chronologically precedes January 1000,
yet "999-12" is not lexicographically below "1000-01" (the year is not
zero-padded), refuting the ordering claim as stated for arbitrary dates. -/
theorem generateMonthId_counterexample :
    (JSDate.mk 999 ⟨11, by decide⟩ 1).year < (JSDate.mk 1000 ⟨0, by decide⟩ 1).year ∧
    ¬ generateMonthId (JSDate.mk 999 ⟨11, by decide⟩ 1)
        < generateMonthId (JSDate.mk 1000 ⟨0, by decide⟩ 1) := by
  refine ⟨by decide, ?_⟩
  rw [generateMonthId, generateMonthId, stringMk_lt_iff]
  decide

/-- A sample month used to instantiate theorems with hypotheses. -/
def sampleClosedMonth : MonthData :=
  { id := "2025-01", label := "Janeiro 2025", salary1 := 1500, salary2 := 0,
    expenses := [{ id := DbId.client "a", name := "Aluguel", value := 300,
                   category := "Moradia", date := "2025-01-05", type := ExpenseType.fixed }],
    closed := true }

/-- A sample open month used to instantiate theorems with hypotheses. -/
def sampleOpenMonth : MonthData :=
  { id := "2025-02", label := "Fevereiro 2025", salary1 := 900, salary2 := 0,
    expenses := [], closed := false }

/-- C4 witness: the permutation invariance and the non-closed-month invariance
hold on a concrete two-month collection. -/
theorem calculateAccumulatedSavings_spec_witness :
    calculateAccumulatedSavings [sampleClosedMonth, sampleOpenMonth]
      = calculateAccumulatedSavings [sampleOpenMonth, sampleClosedMonth] ∧
    calculateAccumulatedSavings ([sampleClosedMonth] ++ sampleOpenMonth :: [])
      = calculateAccumulatedSavings ([sampleClosedMonth] ++ []) := by
  constructor
  · exact calculateAccumulatedSavings_spec.2.1 _ _ (List.Perm.swap _ _ _)
  · exact calculateAccumulatedSavings_spec.2.2 sampleOpenMonth (by decide) [sampleClosedMonth] []

/-- A row of the `months` table: the uuid primary key (modelled as a counter
value), the owning user, the `YYYY-MM` month code, and the payload columns. -/
structure MonthRow where
  rowId : Nat
  userId : String
  monthCode : String
  label : String
  salary1 : Int
  salary2 : Int
  closed : Bool
deriving DecidableEq

/-- A row of the `expenses` table. `monthId` references `MonthRow.rowId`. -/
structure ExpenseRow where
  id : DbId
  userId : String
  monthId : Nat
  name : String
  value : Int
  category : String
  date : String
  type : ExpenseType
deriving DecidableEq

/-- The remote store: the two tables plus the supply of fresh uuids (month
row ids and store-generated expense ids), modelled as a counter. -/
structure Store where
  months : List MonthRow
  expenses : List ExpenseRow
  nextId : Nat
deriving DecidableEq

/-- Predicate for the `onConflict: 'user_id, month_code'` key. -/
def monthMatches (userId monthCode : String) (r : MonthRow) : Bool :=
  decide (r.userId = userId ∧ r.monthCode = monthCode)

/-- Overwrite a month row's payload columns with a month's current values. -/
def monthRowUpdate (m : MonthData) (q : MonthRow) : MonthRow :=
  { q with label := m.label, salary1 := m.salary1, salary2 := m.salary2, closed := m.closed }

/-- The month row inserted for a month that has no remote row yet. -/
def monthRowNew (rowId : Nat) (userId : String) (m : MonthData) : MonthRow :=
  { rowId := rowId, userId := userId, monthCode := m.id, label := m.label,
    salary1 := m.salary1, salary2 := m.salary2, closed := m.closed }

/-- `supabase.from('months').upsert(..., { onConflict: 'user_id, month_code' })
.select().single()`: update the row with the conflicting key if present,
otherwise insert a fresh row; either way return the row's uuid. -/
def Store.upsertMonth (s : Store) (userId : String) (m : MonthData) : Store × Nat :=
  match s.months.find? (monthMatches userId m.id) with
  | some r =>
    ({ s with months := s.months.map fun q =>
        if monthMatches userId m.id q then monthRowUpdate m q else q }, r.rowId)
  | none =>
    ({ s with
        months := s.months ++ [monthRowNew s.nextId userId m],
        nextId := s.nextId + 1 }, s.nextId)

/-- `supabase.from('expenses').delete().in('id', ids)`. -/
def Store.deleteExpensesByIds (s : Store) (ids : List DbId) : Store :=
  { s with expenses := s.expenses.filter fun r => decide (¬ r.id ∈ ids) }

/-- `supabase.from('expenses').delete().eq('month_id', monthUUID)`. -/
def Store.deleteExpensesByMonth (s : Store) (monthUUID : Nat) : Store :=
  { s with expenses := s.expenses.filter fun r => decide (¬ r.monthId = monthUUID) }

/-- The row payload `saveMonth` builds for each client expense (it keeps the
client-generated id, line 236 of `financeService.ts`). -/
def expenseToRow (userId : String) (monthUUID : Nat) (e : Expense) : ExpenseRow :=
  { id := e.id, userId := userId, monthId := monthUUID, name := e.name, value := e.value,
    category := e.category, date := e.date, type := e.type }

/-- One step of `upsert(..., { onConflict: 'id' })`: replace the row carrying
the payload's id if one exists, otherwise append the payload. -/
def Store.upsertExpense (s : Store) (p : ExpenseRow) : Store :=
  if s.expenses.any fun r => decide (r.id = p.id) then
    { s with expenses := s.expenses.map fun r => if r.id = p.id then p else r }
  else
    { s with expenses := s.expenses ++ [p] }

/-- `supabase.from('expenses').upsert(rows, { onConflict: 'id' })`. -/
def Store.upsertExpenses (s : Store) (ps : List ExpenseRow) : Store :=
  ps.foldl Store.upsertExpense s

/-- One insert of `saveMonths`' rebuilt expense list: the payload omits the
client id (commented out in the source, lines 156-168), so the store assigns
a fresh id. -/
def Store.insertExpense (s : Store) (userId : String) (monthUUID : Nat) (e : Expense) : Store :=
  { s with
      expenses := s.expenses ++
        [{ id := DbId.server s.nextId, userId := userId, monthId := monthUUID,
           name := e.name, value := e.value, category := e.category,
           date := e.date, type := e.type }],
      nextId := s.nextId + 1 }

/-- `supabase.from('expenses').insert(expensesToInsert)` for `saveMonths`. -/
def Store.insertExpenses (s : Store) (userId : String) (monthUUID : Nat) (es : List Expense) : Store :=
  es.foldl (fun st e => st.insertExpense userId monthUUID e) s

/-- Reading an expense row back into the client `Expense` shape
(`FinanceAPI.getMonths`, lines 94-101). -/
def rowToExpense (r : ExpenseRow) : Expense :=
  { id := r.id, name := r.name, value := r.value, category := r.category,
    date := r.date, type := r.type }

/-- `FinanceAPI.getMonths` (lines 58-107), on the success path: fetch the
user's month rows, fetch the expense rows whose parent is among them, and
join in memory by parent key. -/
def getMonths (userId : String) (s : Store) : List MonthData :=
  let monthsData := s.months.filter fun m => decide (m.userId = userId)
  if monthsData.isEmpty then []
  else
    let monthIds := monthsData.map MonthRow.rowId
    let expensesData := s.expenses.filter fun e => decide (e.monthId ∈ monthIds)
    monthsData.map fun m =>
      { id := m.monthCode, label := m.label, salary1 := m.salary1, salary2 := m.salary2,
        expenses := (expensesData.filter fun e => decide (e.monthId = m.rowId)).map rowToExpense,
        closed := m.closed }

/-- Failure flags for one month's worth of remote calls: whether the month
upsert, the expense fetch (`saveMonth` only), the expense delete, and the
expense write (upsert in `saveMonth`, insert in `saveMonths`) return a
Supabase `error`. A failed call leaves the store unchanged. -/
structure SaveFail where
  fMonth : Bool
  fFetch : Bool
  fDelete : Bool
  fWrite : Bool
deriving DecidableEq

/-- The all-success failure assignment. -/
def noFail : SaveFail := { fMonth := false, fFetch := false, fDelete := false, fWrite := false }

/-- The errors `FinanceAPI.saveMonth` can throw, tagged by the call that
produced them. -/
inductive SbError where
| monthUpsert
| expenseFetch
| expenseUpsert
deriving DecidableEq

/-- `FinanceAPI.saveMonth` (lines 183-255): upsert the month row (throwing on
failure); fetch the month's remote expense ids (throwing on failure); delete
the remote ids absent from the client list (a failure here is only logged);
upsert the client's expense list keyed by expense id (throwing on failure).
The returned pair is the store after the call together with the thrown error,
if any — an exception does not roll back the writes already made. -/
def saveMonth (f : SaveFail) (userId : String) (month : MonthData) (s : Store) :
    Store × Option SbError :=
  if f.fMonth then (s, some SbError.monthUpsert)
  else
    let res := s.upsertMonth userId month
    let s1 := res.1
    let monthUUID := res.2
    if f.fFetch then (s1, some SbError.expenseFetch)
    else
      let existingIds := (s1.expenses.filter fun e => decide (e.monthId = monthUUID)).map ExpenseRow.id
      let currentIds := month.expenses.map Expense.id
      let toDelete := existingIds.filter fun i => decide (¬ i ∈ currentIds)
      let s2 :=
        if toDelete.isEmpty then s1
        else if f.fDelete then s1
        else s1.deleteExpensesByIds toDelete
      if month.expenses.isEmpty then (s2, none)
      else if f.fWrite then (s2, some SbError.expenseUpsert)
      else (s2.upsertExpenses (month.expenses.map (expenseToRow userId monthUUID)), none)

/-- `FinanceAPI.saveMonths` (lines 114-177): for each month in turn, upsert
the month row (on failure: log and `continue`); delete all the month's
expense rows (on failure: log and carry on — the source comment says "Don't
stop, try to insert anyway"); re-insert the client's expense list without
ids, letting the store assign fresh ones (on failure: log). No error is ever
propagated. Each month is paired with the failure flags of its remote calls. -/
def saveMonths (userId : String) : List (MonthData × SaveFail) → Store → Store
| [], s => s
| (month, f) :: rest, s =>
  if f.fMonth then saveMonths userId rest s
  else
    let res := s.upsertMonth userId month
    let s1 := res.1
    let monthUUID := res.2
    let s2 := if f.fDelete then s1 else s1.deleteExpensesByMonth monthUUID
    let s3 :=
      if month.expenses.isEmpty then s2
      else if f.fWrite then s2
      else s2.insertExpenses userId monthUUID month.expenses
    saveMonths userId rest s3

/-- Bound on an id relative to the fresh-id counter: client ids are always
compatible, server ids must have been generated earlier. -/
def DbId.freshBound (i : DbId) (k : Nat) : Prop :=
  match i with
  | DbId.client _ => True
  | DbId.server n => n < k

instance (i : DbId) (k : Nat) : Decidable (i.freshBound k) :=
  match i with
  | DbId.client _ => isTrue trivial
  | DbId.server _ => Nat.decLt _ _

theorem upsertExpense_mem_elim {s : Store} {p r : ExpenseRow}
    (h : r ∈ (s.upsertExpense p).expenses) :
    r = p ∨ (r ∈ s.expenses ∧ r.id ≠ p.id) := by
  unfold Store.upsertExpense at h
  by_cases hany : s.expenses.any fun r => decide (r.id = p.id)
  · rw [if_pos hany] at h
    simp only at h
    obtain ⟨r0, hr0, he⟩ := List.mem_map.mp h
    by_cases hid : r0.id = p.id
    · left; rw [if_pos hid] at he; exact he.symm
    · right; rw [if_neg hid] at he; exact he ▸ ⟨hr0, hid⟩
  · rw [if_neg hany] at h
    simp only [List.mem_append, List.mem_singleton] at h
    rcases h with h | h
    · right
      refine ⟨h, ?_⟩
      simp only [List.any_eq_true, decide_eq_true_eq, not_exists, not_and] at hany
      exact hany r h
    · left; exact h

theorem upsertExpense_mem_of_ne {s : Store} {p r : ExpenseRow}
    (hr : r ∈ s.expenses) (hne : r.id ≠ p.id) : r ∈ (s.upsertExpense p).expenses := by
  unfold Store.upsertExpense
  by_cases hany : s.expenses.any fun r => decide (r.id = p.id)
  · rw [if_pos hany]
    simpa [if_neg hne] using List.mem_map_of_mem (fun r => if r.id = p.id then p else r) hr
  · rw [if_neg hany]
    exact List.mem_append_left _ hr

theorem upsertExpense_mem_self (s : Store) (p : ExpenseRow) :
    p ∈ (s.upsertExpense p).expenses := by
  unfold Store.upsertExpense
  by_cases hany : s.expenses.any fun r => decide (r.id = p.id)
  · rw [if_pos hany]
    simp only [List.any_eq_true, decide_eq_true_eq] at hany
    obtain ⟨r0, hr0, hid⟩ := hany
    simpa [if_pos hid] using List.mem_map_of_mem (fun r => if r.id = p.id then p else r) hr0
  · rw [if_neg hany]
    exact List.mem_append_right _ (List.mem_singleton.mpr rfl)

theorem upsertExpense_keeps (s : Store) (p : ExpenseRow) :
    (s.upsertExpense p).months = s.months ∧ (s.upsertExpense p).nextId = s.nextId := by
  unfold Store.upsertExpense
  by_cases hany : s.expenses.any fun r => decide (r.id = p.id) <;> simp [hany]

theorem upsertExpenses_keeps :
    ∀ (ps : List ExpenseRow) (s : Store),
      (s.upsertExpenses ps).months = s.months ∧ (s.upsertExpenses ps).nextId = s.nextId := by
  intro ps
  induction ps with
  | nil => intro s; exact ⟨rfl, rfl⟩
  | cons p ps ih =>
    intro s
    have h1 := upsertExpense_keeps s p
    have h2 := ih (s.upsertExpense p)
    exact ⟨h2.1.trans h1.1, h2.2.trans h1.2⟩

theorem upsertExpenses_mem_elim :
    ∀ (ps : List ExpenseRow) (s : Store) (r : ExpenseRow),
      r ∈ (s.upsertExpenses ps).expenses →
      r ∈ ps ∨ (r ∈ s.expenses ∧ r.id ∉ ps.map ExpenseRow.id) := by
  intro ps
  induction ps with
  | nil => intro s r h; exact Or.inr ⟨h, by simp⟩
  | cons p ps ih =>
    intro s r h
    rcases ih (s.upsertExpense p) r h with h1 | ⟨h1, h2⟩
    · exact Or.inl (List.mem_cons_of_mem _ h1)
    · rcases upsertExpense_mem_elim h1 with h3 | ⟨h3, h4⟩
      · exact Or.inl (h3 ▸ List.mem_cons_self _ _)
      · refine Or.inr ⟨h3, ?_⟩
        simp only [List.map_cons, List.mem_cons, not_or]
        exact ⟨h4, h2⟩

theorem upsertExpenses_mem_of_not_mem_ids :
    ∀ (ps : List ExpenseRow) (s : Store) (r : ExpenseRow),
      r ∈ s.expenses → r.id ∉ ps.map ExpenseRow.id → r ∈ (s.upsertExpenses ps).expenses := by
  intro ps
  induction ps with
  | nil => intro s r h _; exact h
  | cons p ps ih =>
    intro s r h hn
    simp only [List.map_cons, List.mem_cons, not_or] at hn
    exact ih (s.upsertExpense p) r (upsertExpense_mem_of_ne h hn.1) hn.2

theorem upsertExpenses_mem_payload :
    ∀ (ps : List ExpenseRow) (s : Store),
      (ps.map ExpenseRow.id).Nodup → ∀ p ∈ ps, p ∈ (s.upsertExpenses ps).expenses := by
  intro ps
  induction ps with
  | nil => intro s _ p hp; simp at hp
  | cons q ps ih =>
    intro s hnd p hp
    simp only [List.map_cons, List.nodup_cons] at hnd
    rcases List.mem_cons.mp hp with rfl | hp'
    · exact upsertExpenses_mem_of_not_mem_ids ps _ p (upsertExpense_mem_self s p) hnd.1
    · exact ih (s.upsertExpense q) hnd.2 p hp'

theorem upsertExpenses_id_eq_payload :
    ∀ (ps : List ExpenseRow) (s : Store),
      (ps.map ExpenseRow.id).Nodup →
      ∀ p ∈ ps, ∀ r ∈ (s.upsertExpenses ps).expenses, r.id = p.id → r = p := by
  intro ps s hnd p hp r hr hid
  rcases upsertExpenses_mem_elim ps s r hr with h1 | ⟨_, h2⟩
  · exact List.inj_on_of_nodup_map hnd h1 hp hid
  · exact absurd (hid ▸ List.mem_map_of_mem ExpenseRow.id hp) h2

theorem payload_ids (u : String) (mid : Nat) (es : List Expense) :
    (es.map (expenseToRow u mid)).map ExpenseRow.id = es.map Expense.id := by
  rw [List.map_map]
  rfl

theorem rowToExpense_toRow (u : String) (mid : Nat) (e : Expense) :
    rowToExpense (expenseToRow u mid e) = e := rfl

theorem deleteExpensesByIds_nil (s : Store) : s.deleteExpensesByIds [] = s := by
  unfold Store.deleteExpensesByIds
  cases s with
  | mk months expenses nextId => simp

/-- The ids `saveMonth` fetches for a month and decides to delete. -/
def staleIds (month : MonthData) (s1 : Store) (monthUUID : Nat) : List DbId :=
  ((s1.expenses.filter fun e => decide (e.monthId = monthUUID)).map ExpenseRow.id).filter
    fun i => decide (¬ i ∈ month.expenses.map Expense.id)

theorem saveMonth_noFail_eq (u : String) (month : MonthData) (s : Store) :
    saveMonth noFail u month s
      = ((((s.upsertMonth u month).1.deleteExpensesByIds
            (staleIds month (s.upsertMonth u month).1 (s.upsertMonth u month).2)).upsertExpenses
          (month.expenses.map (expenseToRow u (s.upsertMonth u month).2))), none) := by
  unfold saveMonth staleIds noFail
  simp only [Bool.false_eq_true, if_false]
  by_cases hemp :
      ((((s.upsertMonth u month).1.expenses.filter
          fun e => decide (e.monthId = (s.upsertMonth u month).2)).map ExpenseRow.id).filter
        fun i => decide (¬ i ∈ month.expenses.map Expense.id)).isEmpty
  · rw [if_pos hemp]
    rw [List.isEmpty_iff] at hemp
    rw [hemp, deleteExpensesByIds_nil]
    by_cases hexp : month.expenses.isEmpty
    · rw [if_pos hexp, List.isEmpty_iff.mp hexp]
      rfl
    · rw [if_neg hexp]
  · rw [if_neg hemp]
    by_cases hexp : month.expenses.isEmpty
    · rw [if_pos hexp, List.isEmpty_iff.mp hexp]
      rfl
    · rw [if_neg hexp]

theorem upsertMonth_self (s : Store) (u : String) (m : MonthData) :
    ∃ R ∈ (s.upsertMonth u m).1.months,
      R.rowId = (s.upsertMonth u m).2 ∧ R.userId = u ∧ R.monthCode = m.id ∧
      R.label = m.label ∧ R.salary1 = m.salary1 ∧ R.salary2 = m.salary2 ∧ R.closed = m.closed := by
  unfold Store.upsertMonth
  cases hfind : s.months.find? (monthMatches u m.id) with
  | some r =>
    simp only
    have hrmem : r ∈ s.months := List.mem_of_find?_eq_some hfind
    have hrmatch : monthMatches u m.id r = true := List.find?_some hfind
    have hmatch' : r.userId = u ∧ r.monthCode = m.id := by
      simpa [monthMatches] using hrmatch
    refine ⟨monthRowUpdate m r, ?_, rfl, hmatch'.1, hmatch'.2, rfl, rfl, rfl, rfl⟩
    have := List.mem_map_of_mem
      (fun q => if monthMatches u m.id q then monthRowUpdate m q else q) hrmem
    simpa [hrmatch] using this
  | none =>
    simp only
    exact ⟨monthRowNew s.nextId u m, List.mem_append_right _ (List.mem_singleton.mpr rfl),
      rfl, rfl, rfl, rfl, rfl, rfl, rfl⟩

theorem deleteExpensesByIds_keeps (s : Store) (ids : List DbId) :
    (s.deleteExpensesByIds ids).months = s.months ∧
    (s.deleteExpensesByIds ids).nextId = s.nextId := ⟨rfl, rfl⟩

theorem getMonths_eq_of_ne (userId : String) (s : Store)
    (h : (s.months.filter fun m => decide (m.userId = userId)) ≠ []) :
    getMonths userId s = (s.months.filter fun m => decide (m.userId = userId)).map fun m =>
      { id := m.monthCode
        label := m.label
        salary1 := m.salary1
        salary2 := m.salary2
        expenses := ((s.expenses.filter fun e => decide (e.monthId ∈
            (s.months.filter fun m => decide (m.userId = userId)).map MonthRow.rowId)).filter
          fun e => decide (e.monthId = m.rowId)).map rowToExpense
        closed := m.closed } := by
  unfold getMonths
  rw [if_neg (by simpa [List.isEmpty_iff] using h)]

theorem getMonths_mem {userId : String} {s : Store} {R : MonthRow}
    (hR : R ∈ s.months) (huser : R.userId = userId) :
    ∃ md ∈ getMonths userId s,
      md.id = R.monthCode ∧ md.salary1 = R.salary1 ∧ md.salary2 = R.salary2 ∧
      md.closed = R.closed ∧
      ∀ e : Expense,
        (e ∈ md.expenses ↔ ∃ r ∈ s.expenses, r.monthId = R.rowId ∧ rowToExpense r = e) := by
  have hRf : R ∈ s.months.filter fun m => decide (m.userId = userId) :=
    List.mem_filter.mpr ⟨hR, by simp [huser]⟩
  have hne : (s.months.filter fun m => decide (m.userId = userId)) ≠ [] :=
    List.ne_nil_of_mem hRf
  rw [getMonths_eq_of_ne userId s hne]
  refine ⟨_, List.mem_map_of_mem _ hRf, rfl, rfl, rfl, rfl, ?_⟩
  intro e
  simp only [List.mem_map, List.mem_filter, decide_eq_true_eq]
  constructor
  · rintro ⟨r, ⟨⟨hr1, _⟩, hr3⟩, hr4⟩
    exact ⟨r, hr1, hr3, hr4⟩
  · rintro ⟨r, hr1, hr2, hr3⟩
    refine ⟨r, ⟨⟨hr1, ?_⟩, hr2⟩, hr3⟩
    rw [hr2]
    exact ⟨R, ⟨hR, huser⟩, rfl⟩

theorem saveMonth_noFail_months (u : String) (month : MonthData) (s : Store) :
    (saveMonth noFail u month s).1.months = (s.upsertMonth u month).1.months := by
  rw [saveMonth_noFail_eq]
  exact (upsertExpenses_keeps _ _).1

/-- The three row-level facts about a successful incremental save: every
resulting expense row of the saved month is one of the client payloads, every
client payload row is present, and a payload's id determines its row. -/
theorem saveMonth_noFail_rows (u : String) (month : MonthData) (s : Store)
    (hnd : (month.expenses.map Expense.id).Nodup) :
    (∀ r ∈ (saveMonth noFail u month s).1.expenses, r.monthId = (s.upsertMonth u month).2 →
       r ∈ month.expenses.map (expenseToRow u (s.upsertMonth u month).2)) ∧
    (∀ p ∈ month.expenses.map (expenseToRow u (s.upsertMonth u month).2),
       p ∈ (saveMonth noFail u month s).1.expenses) ∧
    (∀ p ∈ month.expenses.map (expenseToRow u (s.upsertMonth u month).2),
       ∀ r ∈ (saveMonth noFail u month s).1.expenses, r.id = p.id → r = p) := by
  rw [saveMonth_noFail_eq]
  set s1 := (s.upsertMonth u month).1 with hs1
  set mUUID := (s.upsertMonth u month).2 with hmU
  set D := staleIds month s1 mUUID with hD
  set s2 := s1.deleteExpensesByIds D with hs2def
  set P := month.expenses.map (expenseToRow u mUUID) with hPdef
  have hPids : P.map ExpenseRow.id = month.expenses.map Expense.id :=
    payload_ids u mUUID month.expenses
  have hPnd : (P.map ExpenseRow.id).Nodup := by rw [hPids]; exact hnd
  refine ⟨?_, ?_, ?_⟩
  · intro r hr hmid
    rcases upsertExpenses_mem_elim P s2 r hr with h | ⟨hmem, hnid⟩
    · exact h
    · exfalso
      have hs2' : r ∈ s1.expenses ∧ r.id ∉ D := by
        rw [hs2def] at hmem
        unfold Store.deleteExpensesByIds at hmem
        simpa using hmem
      have hbase : r.id ∈ (s1.expenses.filter fun e => decide (e.monthId = mUUID)).map
          ExpenseRow.id :=
        List.mem_map_of_mem _ (List.mem_filter.mpr ⟨hs2'.1, by simp [hmid]⟩)
      have hcur : r.id ∈ month.expenses.map Expense.id := by
        by_contra hno
        refine hs2'.2 ?_
        rw [hD]
        unfold staleIds
        exact List.mem_filter.mpr ⟨hbase, by simpa using hno⟩
      rw [← hPids] at hcur
      exact hnid hcur
  · exact fun p hp => upsertExpenses_mem_payload P s2 hPnd p hp
  · exact fun p hp r hr hid => upsertExpenses_id_eq_payload P s2 hPnd p hp r hr hid

/-- C2: after a successful incremental save of a month (with its
client-generated expense ids pairwise distinct, as the data model requires),
a full load returns a month with the same id, salaries and closed flag whose
expense set equals the client's list as a set — whatever the prior remote
expense rows for that month were, including rows absent from the client list,
which are deleted. -/
theorem saveMonth_roundtrip (u : String) (month : MonthData) (s : Store)
    (hnd : (month.expenses.map Expense.id).Nodup) :
    ∃ md ∈ getMonths u (saveMonth noFail u month s).1,
      md.id = month.id ∧ md.salary1 = month.salary1 ∧ md.salary2 = month.salary2 ∧
      md.closed = month.closed ∧
      (∀ e ∈ md.expenses, e ∈ month.expenses) ∧ ∀ e ∈ month.expenses, e ∈ md.expenses := by
  obtain ⟨R, hRmem, hRrow, hRuser, hRcode, hRlab, hRs1, hRs2, hRcl⟩ := upsertMonth_self s u month
  obtain ⟨hA, hB, _⟩ := saveMonth_noFail_rows u month s hnd
  have hRfin : R ∈ (saveMonth noFail u month s).1.months := by
    rw [saveMonth_noFail_months]; exact hRmem
  obtain ⟨md, hmdmem, hmdid, hmds1, hmds2, hmdcl, hmdexp⟩ := getMonths_mem hRfin hRuser
  refine ⟨md, hmdmem, by rw [hmdid, hRcode], by rw [hmds1, hRs1], by rw [hmds2, hRs2],
    by rw [hmdcl, hRcl], ?_, ?_⟩
  · intro e he
    obtain ⟨r, hr1, hr2, hr3⟩ := (hmdexp e).mp he
    have hrP := hA r hr1 (by rw [hr2, hRrow])
    obtain ⟨e0, he0, he0'⟩ := List.mem_map.mp hrP
    rw [← hr3, ← he0', rowToExpense_toRow]
    exact he0
  · intro e he
    refine (hmdexp e).mpr
      ⟨expenseToRow u (s.upsertMonth u month).2 e, hB _ (List.mem_map_of_mem _ he), ?_, rfl⟩
    rw [hRrow]
    rfl

/-- A store holding one month row for user `"u"` and one expense row for it
that is absent from the client's list (it must disappear after a save). -/
def sampleStore : Store :=
  { months := [{ rowId := 0, userId := "u", monthCode := "2025-01", label := "Janeiro 2025",
                 salary1 := 100, salary2 := 0, closed := false }],
    expenses := [{ id := DbId.client "stale", userId := "u", monthId := 0, name := "Old",
                   value := 5, category := "Outros", date := "2025-01-01",
                   type := ExpenseType.variable' }],
    nextId := 1 }

/-- C2 witness: the round trip at a concrete month with two expenses saved
over a prior remote state containing a stale expense row. -/
theorem saveMonth_roundtrip_witness :
    ∃ md ∈ getMonths "u" (saveMonth noFail "u" sampleClosedMonth sampleStore).1,
      md.id = sampleClosedMonth.id ∧ md.salary1 = sampleClosedMonth.salary1 ∧
      md.salary2 = sampleClosedMonth.salary2 ∧ md.closed = sampleClosedMonth.closed ∧
      (∀ e ∈ md.expenses, e ∈ sampleClosedMonth.expenses) ∧
      ∀ e ∈ sampleClosedMonth.expenses, e ∈ md.expenses :=
  saveMonth_roundtrip "u" sampleClosedMonth sampleStore (by decide)

theorem map_id_of_eq {α : Type} (l : List α) (f : α → α) (h : ∀ x ∈ l, f x = x) :
    l.map f = l := by
  induction l with
  | nil => rfl
  | cons a t ih =>
    simp only [List.map_cons, h a (List.mem_cons_self a t),
      ih fun x hx => h x (List.mem_cons_of_mem a hx)]

theorem monthMatches_update (u c : String) (m : MonthData) (q : MonthRow) :
    monthMatches u c (monthRowUpdate m q) = monthMatches u c q := rfl

theorem upsertMonth_again (s : Store) (u : String) (m : MonthData) (t : Store)
    (ht : t.months = (s.upsertMonth u m).1.months) :
    t.upsertMonth u m = (t, (s.upsertMonth u m).2) := by
  unfold Store.upsertMonth at ht ⊢
  cases hfind : s.months.find? (monthMatches u m.id) with
  | some r =>
    rw [hfind] at ht
    simp only at ht
    have hupd : ∀ q, (monthMatches u m.id q = true →
        monthMatches u m.id (monthRowUpdate m q) = true) := by
      intro q hq
      rw [monthMatches_update]; exact hq
    have hfind2 : t.months.find? (monthMatches u m.id)
        = some (monthRowUpdate m r) := by
      rw [ht, List.find?_map]
      have hcomp : (monthMatches u m.id ∘ fun q =>
          if monthMatches u m.id q then monthRowUpdate m q else q) = monthMatches u m.id := by
        funext q
        by_cases hq : monthMatches u m.id q
        · simp [Function.comp, hq, monthMatches_update]
        · simp [Function.comp, hq]
      rw [hcomp, hfind]
      simp [List.find?_some hfind]
    rw [hfind2]
    simp only
    have hmapid : t.months.map
        (fun q => if monthMatches u m.id q then monthRowUpdate m q else q) = t.months := by
      rw [ht, List.map_map]
      refine List.map_congr_left fun q _ => ?_
      by_cases hq : monthMatches u m.id q
      · simp only [Function.comp, hq, monthMatches_update, if_true, if_pos]
        rfl
      · simp [Function.comp, hq]
    rw [hmapid]
    have hrow : (monthRowUpdate m r).rowId = r.rowId := rfl
    rw [hrow]
  | none =>
    rw [hfind] at ht
    simp only at ht
    have hnew : monthMatches u m.id (monthRowNew s.nextId u m) = true := by
      simp [monthMatches, monthRowNew]
    have hnone : ∀ q ∈ s.months, ¬ monthMatches u m.id q = true :=
      fun q hq => List.find?_eq_none.mp hfind q hq
    have hfind2 : t.months.find? (monthMatches u m.id) = some (monthRowNew s.nextId u m) := by
      rw [ht, List.find?_append, hfind]
      simp [hnew]
    rw [hfind2]
    simp only
    have hmapid : t.months.map
        (fun q => if monthMatches u m.id q then monthRowUpdate m q else q) = t.months := by
      rw [ht]
      refine map_id_of_eq _ _ fun q hq => ?_
      rcases List.mem_append.mp hq with hq1 | hq1
      · rw [if_neg (hnone q hq1)]
      · rw [List.mem_singleton.mp hq1, if_pos hnew]
        rfl
    rw [hmapid]
    rfl

theorem upsertExpense_id_of_present (t : Store) (p : ExpenseRow)
    (hmem : p ∈ t.expenses) (huniq : ∀ r ∈ t.expenses, r.id = p.id → r = p) :
    t.upsertExpense p = t := by
  unfold Store.upsertExpense
  have hany : (t.expenses.any fun r => decide (r.id = p.id)) = true := by
    simp only [List.any_eq_true, decide_eq_true_eq]
    exact ⟨p, hmem, rfl⟩
  rw [if_pos hany]
  have : t.expenses.map (fun r => if r.id = p.id then p else r) = t.expenses := by
    refine map_id_of_eq _ _ fun r hr => ?_
    by_cases hid : r.id = p.id
    · rw [if_pos hid, huniq r hr hid]
    · rw [if_neg hid]
  rw [this]

theorem upsertExpenses_id_of_present :
    ∀ (ps : List ExpenseRow) (t : Store),
      (∀ p ∈ ps, p ∈ t.expenses) →
      (∀ p ∈ ps, ∀ r ∈ t.expenses, r.id = p.id → r = p) →
      t.upsertExpenses ps = t := by
  intro ps
  induction ps with
  | nil => intro t _ _; rfl
  | cons p ps ih =>
    intro t hmem huniq
    show (t.upsertExpense p).upsertExpenses ps = t
    rw [upsertExpense_id_of_present t p (hmem p (List.mem_cons_self p ps))
      (huniq p (List.mem_cons_self p ps))]
    exact ih t (fun q hq => hmem q (List.mem_cons_of_mem p hq))
      (fun q hq => huniq q (List.mem_cons_of_mem p hq))

/-- The `(user_id, month_code)` key of a month row. -/
def pairKey (r : MonthRow) : String × String := (r.userId, r.monthCode)

theorem upsertMonth_expenses (s : Store) (u : String) (m : MonthData) :
    (s.upsertMonth u m).1.expenses = s.expenses := by
  unfold Store.upsertMonth
  cases s.months.find? (monthMatches u m.id) <;> rfl

theorem upsertMonth_pairs (s : Store) (u : String) (m : MonthData)
    (h : (s.months.map pairKey).Nodup) :
    ((s.upsertMonth u m).1.months.map pairKey).Nodup := by
  unfold Store.upsertMonth
  cases hfind : s.months.find? (monthMatches u m.id) with
  | some r =>
    simp only
    rw [List.map_map]
    have hcomp : (pairKey ∘ fun q =>
        if monthMatches u m.id q then monthRowUpdate m q else q) = pairKey := by
      funext q
      by_cases hq : monthMatches u m.id q
      · simp only [Function.comp, hq, if_true, if_pos]
        rfl
      · simp [Function.comp, hq]
    rw [hcomp]
    exact h
  | none =>
    simp only
    rw [List.map_append, List.nodup_append]
    refine ⟨h, List.nodup_singleton _, ?_⟩
    intro x hx hx2
    simp only [List.map_cons, List.map_nil, List.mem_singleton] at hx2
    obtain ⟨q, hq, hq2⟩ := List.mem_map.mp hx
    have hnomatch := List.find?_eq_none.mp hfind q hq
    refine hnomatch ?_
    have : q.userId = u ∧ q.monthCode = m.id := by
      have := hq2.trans hx2
      exact ⟨congrArg Prod.fst this, congrArg Prod.snd this⟩
    simp [monthMatches, this.1, this.2]

theorem upsertExpense_ids_nodup (t : Store) (p : ExpenseRow)
    (h : (t.expenses.map ExpenseRow.id).Nodup) :
    ((t.upsertExpense p).expenses.map ExpenseRow.id).Nodup := by
  unfold Store.upsertExpense
  by_cases hany : t.expenses.any fun r => decide (r.id = p.id)
  · rw [if_pos hany]
    simp only
    rw [List.map_map]
    have hcomp : (ExpenseRow.id ∘ fun r => if r.id = p.id then p else r) = ExpenseRow.id := by
      funext r
      by_cases hid : r.id = p.id
      · simp [Function.comp, hid]
      · simp [Function.comp, hid]
    rw [hcomp]
    exact h
  · rw [if_neg hany]
    simp only
    rw [List.map_append, List.nodup_append]
    refine ⟨h, List.nodup_singleton _, ?_⟩
    intro x hx hx2
    simp only [List.map_cons, List.map_nil, List.mem_singleton] at hx2
    obtain ⟨r, hr, hr2⟩ := List.mem_map.mp hx
    simp only [List.any_eq_true, decide_eq_true_eq, not_exists, not_and] at hany
    exact hany r hr (hr2.trans hx2)

theorem upsertExpenses_ids_nodup :
    ∀ (ps : List ExpenseRow) (t : Store),
      (t.expenses.map ExpenseRow.id).Nodup →
      ((t.upsertExpenses ps).expenses.map ExpenseRow.id).Nodup := by
  intro ps
  induction ps with
  | nil => intro t h; exact h
  | cons p ps ih => intro t h; exact ih _ (upsertExpense_ids_nodup t p h)

theorem deleteExpensesByIds_ids_nodup (s : Store) (ids : List DbId)
    (h : (s.expenses.map ExpenseRow.id).Nodup) :
    ((s.deleteExpensesByIds ids).expenses.map ExpenseRow.id).Nodup :=
  ((List.filter_sublist _).map _).nodup h

theorem saveMonth_noFail_nodup (u : String) (month : MonthData) (s : Store)
    (hpairs : (s.months.map pairKey).Nodup)
    (hids : (s.expenses.map ExpenseRow.id).Nodup) :
    ((saveMonth noFail u month s).1.months.map pairKey).Nodup ∧
    ((saveMonth noFail u month s).1.expenses.map ExpenseRow.id).Nodup := by
  constructor
  · rw [saveMonth_noFail_months]
    exact upsertMonth_pairs s u month hpairs
  · rw [saveMonth_noFail_eq]
    refine upsertExpenses_ids_nodup _ _ (deleteExpensesByIds_ids_nodup _ _ ?_)
    rw [upsertMonth_expenses]
    exact hids

/-- C5: with the client's expense ids pairwise distinct and a well-formed
prior store (unique `(userId, monthCode)` month key, unique expense id — the
store's uniqueness constraints), a second identical successful `saveMonth`
leaves the remote store exactly as the first one did; in particular the saved
store keeps one month row per `(userId, monthCode)` key and one expense row
per id. -/
theorem saveMonth_idempotent (u : String) (month : MonthData) (s : Store)
    (hnd : (month.expenses.map Expense.id).Nodup)
    (hpairs : (s.months.map pairKey).Nodup)
    (hids : (s.expenses.map ExpenseRow.id).Nodup) :
    (saveMonth noFail u month (saveMonth noFail u month s).1).1
      = (saveMonth noFail u month s).1 ∧
    ((saveMonth noFail u month s).1.months.map pairKey).Nodup ∧
    ((saveMonth noFail u month s).1.expenses.map ExpenseRow.id).Nodup := by
  obtain ⟨hA, hB, hU⟩ := saveMonth_noFail_rows u month s hnd
  obtain ⟨hn1, hn2⟩ := saveMonth_noFail_nodup u month s hpairs hids
  refine ⟨?_, hn1, hn2⟩
  set st1 := (saveMonth noFail u month s).1 with hst1
  have hmonths : st1.months = (s.upsertMonth u month).1.months := by
    rw [hst1, saveMonth_noFail_months]
  have hagain : st1.upsertMonth u month = (st1, (s.upsertMonth u month).2) :=
    upsertMonth_again s u month st1 hmonths
  rw [saveMonth_noFail_eq u month st1, hagain]
  simp only
  have hstale : staleIds month st1 (s.upsertMonth u month).2 = [] := by
    unfold staleIds
    rw [List.filter_eq_nil_iff]
    intro i hi
    obtain ⟨r, hr, hr2⟩ := List.mem_map.mp hi
    have hrmem : r ∈ st1.expenses ∧ r.monthId = (s.upsertMonth u month).2 := by
      have := List.mem_filter.mp hr
      exact ⟨this.1, by simpa using this.2⟩
    have hrP := hA r hrmem.1 hrmem.2
    have : r.id ∈ month.expenses.map Expense.id := by
      rw [← payload_ids u (s.upsertMonth u month).2 month.expenses]
      exact List.mem_map_of_mem ExpenseRow.id hrP
    rw [hr2] at this
    simp [this]
  rw [hstale, deleteExpensesByIds_nil]
  exact upsertExpenses_id_of_present _ st1 hB hU

/-- C5 witness: the idempotence at a concrete month over the empty store. -/
theorem saveMonth_idempotent_witness :
    (saveMonth noFail "u" sampleClosedMonth
        (saveMonth noFail "u" sampleClosedMonth (Store.mk [] [] 0)).1).1
      = (saveMonth noFail "u" sampleClosedMonth (Store.mk [] [] 0)).1 ∧
    ((saveMonth noFail "u" sampleClosedMonth (Store.mk [] [] 0)).1.months.map pairKey).Nodup ∧
    ((saveMonth noFail "u" sampleClosedMonth
        (Store.mk [] [] 0)).1.expenses.map ExpenseRow.id).Nodup :=
  saveMonth_idempotent "u" sampleClosedMonth (Store.mk [] [] 0)
    (by decide) (by decide) (by decide)

theorem deleteExpensesByIds_months (s : Store) (ids : List DbId) :
    (s.deleteExpensesByIds ids).months = s.months := rfl

theorem deleteExpensesByMonth_months (s : Store) (mid : Nat) :
    (s.deleteExpensesByMonth mid).months = s.months := rfl

theorem upsertExpenses_months (ps : List ExpenseRow) (s : Store) :
    (s.upsertExpenses ps).months = s.months := (upsertExpenses_keeps ps s).1

/-- C3 (amended): `saveMonth` returns without throwing exactly when the month
upsert succeeds, the expense fetch succeeds, and the expense upsert either
succeeds or is skipped because the month has no expenses; a delete failure
alone is logged and swallowed (its flag does not influence the outcome or the
thrown error); and once the month upsert has succeeded, the month row with the
saved values is in the store whatever happens to the expense-level calls (no
rollback). The amendment: the original claim said every expense-level failure
after a successful month upsert is swallowed, but the code rethrows the
expense fetch error and the expense upsert error; only the delete error is
logged and swallowed. -/
theorem saveMonth_error_spec (f : SaveFail) (u : String) (m : MonthData) (s : Store) :
    ((saveMonth f u m s).2 = none ↔
      (f.fMonth = false ∧ f.fFetch = false ∧ (f.fWrite = false ∨ m.expenses = []))) ∧
    (f.fMonth = false →
      ∃ r ∈ (saveMonth f u m s).1.months,
        r.userId = u ∧ r.monthCode = m.id ∧ r.label = m.label ∧
        r.salary1 = m.salary1 ∧ r.salary2 = m.salary2 ∧ r.closed = m.closed) := by
  constructor
  · unfold saveMonth
    by_cases h1 : f.fMonth <;> by_cases h2 : f.fFetch <;>
      by_cases h3 : m.expenses.isEmpty <;> by_cases h4 : f.fWrite <;>
      simp [h1, h2, h3, h4, List.isEmpty_iff] <;> simp_all [List.isEmpty_iff]
  · intro h1
    have hmonths : (saveMonth f u m s).1.months = (s.upsertMonth u m).1.months := by
      unfold saveMonth
      rw [h1]
      simp only [Bool.false_eq_true, if_false]
      by_cases h2 : f.fFetch
      · simp [h2]
      · simp only [h2, Bool.false_eq_true, if_false]
        split_ifs <;>
          simp [upsertExpenses_months, deleteExpensesByIds_months]
    rw [hmonths]
    obtain ⟨R, hRmem, _, hRrest⟩ := upsertMonth_self s u m
    exact ⟨R, hRmem, hRrest⟩

/-- C3 witness: the amended propagation rule and the no-rollback fact at a
concrete successful save. -/
theorem saveMonth_error_spec_witness :
    ((saveMonth noFail "u" sampleOpenMonth (Store.mk [] [] 0)).2 = none ↔
      (noFail.fMonth = false ∧ noFail.fFetch = false ∧
        (noFail.fWrite = false ∨ sampleOpenMonth.expenses = []))) ∧
    ∃ r ∈ (saveMonth noFail "u" sampleOpenMonth (Store.mk [] [] 0)).1.months,
      r.userId = "u" ∧ r.monthCode = sampleOpenMonth.id ∧ r.label = sampleOpenMonth.label ∧
      r.salary1 = sampleOpenMonth.salary1 ∧ r.salary2 = sampleOpenMonth.salary2 ∧
      r.closed = sampleOpenMonth.closed :=
  ⟨(saveMonth_error_spec noFail "u" sampleOpenMonth (Store.mk [] [] 0)).1,
    (saveMonth_error_spec noFail "u" sampleOpenMonth (Store.mk [] [] 0)).2 rfl⟩

/-- C3 counterexample: with the month upsert succeeding and the expense fetch
failing, `saveMonth` throws: an expense-level failure after a successful
month upsert is not swallowed, refuting the claim as stated. -/
theorem saveMonth_error_counterexample :
    (SaveFail.mk false true false false).fMonth = false ∧
    (saveMonth (SaveFail.mk false true false false) "u" sampleOpenMonth
        (Store.mk [] [] 0)).2 ≠ none := by
  decide

/-- C8 (amended): in full-save mode a month-upsert failure skips that month
entirely and iteration continues with the next month; an expense-delete
failure is logged but the insert step is still attempted, over the undeleted
rows (the source comment reads "Don't stop, try to insert anyway"); an
insert failure leaves the month's rebuild at the post-delete state; in every
case iteration continues and no error is ever propagated (`saveMonths`
returns a store, never an error). The amendment: the original claim said a
delete failure abandons the month's save with no further writes; the code
still attempts the insert. -/
theorem saveMonths_error_spec (u : String) (m : MonthData) (f : SaveFail)
    (rest : List (MonthData × SaveFail)) (s : Store) :
    (f.fMonth = true → saveMonths u ((m, f) :: rest) s = saveMonths u rest s) ∧
    (f.fMonth = false → f.fDelete = true → f.fWrite = false → m.expenses ≠ [] →
      saveMonths u ((m, f) :: rest) s
        = saveMonths u rest
            ((s.upsertMonth u m).1.insertExpenses u (s.upsertMonth u m).2 m.expenses)) ∧
    (f.fMonth = false → f.fDelete = false → f.fWrite = true →
      saveMonths u ((m, f) :: rest) s
        = saveMonths u rest
            ((s.upsertMonth u m).1.deleteExpensesByMonth (s.upsertMonth u m).2)) := by
  refine ⟨?_, ?_, ?_⟩
  · intro h1
    simp [saveMonths, h1]
  · intro h1 h2 h3 h4
    have h5 : m.expenses.isEmpty = false := by simpa [List.isEmpty_iff] using h4
    simp [saveMonths, h1, h2, h3, h5]
  · intro h1 h2 h3
    by_cases h5 : m.expenses.isEmpty <;> simp [saveMonths, h1, h2, h3, h5]

/-- C8 witness: the three amended behaviours at concrete inputs (skip on
month failure, insert-after-failed-delete, abandon-after-failed-insert). -/
theorem saveMonths_error_spec_witness :
    (saveMonths "u" [(sampleClosedMonth, SaveFail.mk true false false false)] sampleStore
      = saveMonths "u" [] sampleStore) ∧
    (saveMonths "u" [(sampleClosedMonth, SaveFail.mk false false true false)] sampleStore
      = saveMonths "u" []
          ((sampleStore.upsertMonth "u" sampleClosedMonth).1.insertExpenses "u"
            (sampleStore.upsertMonth "u" sampleClosedMonth).2 sampleClosedMonth.expenses)) ∧
    (saveMonths "u" [(sampleClosedMonth, SaveFail.mk false false false true)] sampleStore
      = saveMonths "u" []
          ((sampleStore.upsertMonth "u" sampleClosedMonth).1.deleteExpensesByMonth
            (sampleStore.upsertMonth "u" sampleClosedMonth).2)) :=
  ⟨(saveMonths_error_spec "u" sampleClosedMonth (SaveFail.mk true false false false)
      [] sampleStore).1 rfl,
    (saveMonths_error_spec "u" sampleClosedMonth (SaveFail.mk false false true false)
      [] sampleStore).2.1 rfl rfl rfl (by decide),
    (saveMonths_error_spec "u" sampleClosedMonth (SaveFail.mk false false false true)
      [] sampleStore).2.2 rfl rfl rfl⟩

/-- C8 counterexample: a month whose expense-delete call fails still gets its
insert attempted — the resulting store contains an expense row that was not
there before, refuting "no further write is attempted for it". -/
theorem saveMonths_error_counterexample :
    ∃ r ∈ (saveMonths "u" [(sampleClosedMonth, SaveFail.mk false false true false)]
        sampleStore).expenses, r ∉ sampleStore.expenses := by
  decide

theorem insertExpenses_mem_elim :
    ∀ (es : List Expense) (s : Store) (u : String) (mid : Nat) (r : ExpenseRow),
      r ∈ (s.insertExpenses u mid es).expenses →
      r ∈ s.expenses ∨ ∃ n, r.id = DbId.server n ∧ s.nextId ≤ n := by
  intro es
  induction es with
  | nil => intro s u mid r h; exact Or.inl h
  | cons e es ih =>
    intro s u mid r h
    rcases ih (s.insertExpense u mid e) u mid r h with h1 | ⟨n, hn1, hn2⟩
    · rcases List.mem_append.mp h1 with h2 | h2
      · exact Or.inl h2
      · refine Or.inr ⟨s.nextId, ?_, le_refl _⟩
        rw [List.mem_singleton.mp h2]
    · refine Or.inr ⟨n, hn1, ?_⟩
      have : (s.insertExpense u mid e).nextId = s.nextId + 1 := rfl
      omega

theorem upsertMonth_nextId_ge (s : Store) (u : String) (m : MonthData) :
    s.nextId ≤ (s.upsertMonth u m).1.nextId := by
  unfold Store.upsertMonth
  cases s.months.find? (monthMatches u m.id) <;> simp

/-- C10: full-save mode does not preserve expense identity: every expense row
present after `saveMonths` that was not already in the store carries a
store-generated (`server`) id at least the previous counter value, so —
provided the client ids satisfy the counter bound, which holds for both
client-generated uuids and previously loaded server ids — none of them equals
a client expense id; whereas `saveMonth` writes, for each client expense, a
row keyed by exactly the client-generated id. -/
theorem saveMonths_fresh_ids (u : String) (m : MonthData) (s : Store) :
    (∀ r ∈ (saveMonths u [(m, noFail)] s).expenses,
      r ∈ s.expenses ∨ ∃ n, r.id = DbId.server n ∧ s.nextId ≤ n) ∧
    ((∀ e ∈ m.expenses, DbId.freshBound e.id s.nextId) →
      ∀ r ∈ (saveMonths u [(m, noFail)] s).expenses, r ∉ s.expenses →
        ∀ e ∈ m.expenses, r.id ≠ e.id) ∧
    ((m.expenses.map Expense.id).Nodup →
      ∀ e ∈ m.expenses, ∃ r ∈ (saveMonth noFail u m s).1.expenses,
        r.id = e.id ∧ rowToExpense r = e) := by
  have hsub : ∀ r ∈ ((s.upsertMonth u m).1.deleteExpensesByMonth
      (s.upsertMonth u m).2).expenses, r ∈ s.expenses := by
    intro r hr
    have h1 : r ∈ (s.upsertMonth u m).1.expenses := List.mem_of_mem_filter hr
    rw [upsertMonth_expenses] at h1
    exact h1
  have hmain : ∀ r ∈ (saveMonths u [(m, noFail)] s).expenses,
      r ∈ s.expenses ∨ ∃ n, r.id = DbId.server n ∧ s.nextId ≤ n := by
    intro r hr
    rw [show saveMonths u [(m, noFail)] s
        = (if m.expenses.isEmpty
            then ((s.upsertMonth u m).1.deleteExpensesByMonth (s.upsertMonth u m).2)
            else ((s.upsertMonth u m).1.deleteExpensesByMonth
                (s.upsertMonth u m).2).insertExpenses u (s.upsertMonth u m).2 m.expenses)
      by simp [saveMonths, noFail]] at hr
    by_cases hemp : m.expenses.isEmpty
    · rw [if_pos hemp] at hr
      exact Or.inl (hsub r hr)
    · rw [if_neg hemp] at hr
      rcases insertExpenses_mem_elim m.expenses _ u (s.upsertMonth u m).2 r hr with h1 | ⟨n, h1, h2⟩
      · exact Or.inl (hsub r h1)
      · refine Or.inr ⟨n, h1, ?_⟩
        have h3 : ((s.upsertMonth u m).1.deleteExpensesByMonth
            (s.upsertMonth u m).2).nextId = (s.upsertMonth u m).1.nextId := rfl
        have h4 := upsertMonth_nextId_ge s u m
        omega
  refine ⟨hmain, ?_, ?_⟩
  · intro hfresh r hr hnew e he
    rcases hmain r hr with h1 | ⟨n, h1, h2⟩
    · exact absurd h1 hnew
    · intro heq
      have hb := hfresh e he
      rw [← heq, h1] at hb
      unfold DbId.freshBound at hb
      omega
  · intro hnd e he
    obtain ⟨_, hB, _⟩ := saveMonth_noFail_rows u m s hnd
    exact ⟨expenseToRow u (s.upsertMonth u m).2 e, hB _ (List.mem_map_of_mem _ he), rfl, rfl⟩

/-- C10 witness: the freshness facts at a concrete month and store. -/
theorem saveMonths_fresh_ids_witness :
    ((∀ e ∈ sampleClosedMonth.expenses, DbId.freshBound e.id sampleStore.nextId) ∧
      ∀ r ∈ (saveMonths "u" [(sampleClosedMonth, noFail)] sampleStore).expenses,
        r ∉ sampleStore.expenses → ∀ e ∈ sampleClosedMonth.expenses, r.id ≠ e.id) ∧
    ((sampleClosedMonth.expenses.map Expense.id).Nodup ∧
      ∀ e ∈ sampleClosedMonth.expenses,
        ∃ r ∈ (saveMonth noFail "u" sampleClosedMonth sampleStore).1.expenses,
          r.id = e.id ∧ rowToExpense r = e) :=
  ⟨⟨by decide, (saveMonths_fresh_ids "u" sampleClosedMonth sampleStore).2.1 (by decide)⟩,
    ⟨by decide, (saveMonths_fresh_ids "u" sampleClosedMonth sampleStore).2.2 (by decide)⟩⟩

/-- The in-memory state `App.tsx` mutates through its handlers: the month
collection and the currently selected month id. -/
structure AppLocal where
  months : List MonthData
  currentMonthId : String
deriving DecidableEq

/-- `updateCurrentMonth` from `App.tsx` (lines 326-328): apply an updater to
the currently selected month, leave the others unchanged. -/
def updateCurrentMonth (st : AppLocal) (updater : MonthData → MonthData) : AppLocal :=
  { st with months := st.months.map fun m =>
      if m.id = st.currentMonthId then updater m else m }

/-- `handleResetMonth`'s updater (lines 314-324): wipe salaries and expenses
and set `closed: false`. -/
def monthReset (m : MonthData) : MonthData :=
  { m with salary1 := 0, salary2 := 0, expenses := [], closed := false }

/-- `handleUpdateExpense`'s per-expense rewrite (lines 366-383). -/
def expenseFieldsUpdate (name : String) (value : Int) (category date : String)
    (e : Expense) : Expense :=
  { e with name := name, value := value, category := category, date := date }

/-- The `App.tsx` handlers that can change the month collection, as reachable
from the UI. Environment-derived inputs (the uuid of a new expense, the label
computed from the date, the imported expense list assembled behind the
`window.confirm` dialog, the previous month's salaries, the parsed form
fields) appear as parameters of the operation. -/
inductive UIOp where
| createSpecificMonth (newId label : String) (imported : List Expense) (sal1 sal2 : Int)
| selectMonth (id : String)
| deleteMonth (id : String)
| resetMonth
| saveSalaries (sal1 sal2 : Int)
| addExpense (e : Expense)
| updateExpenseFields (editingId : DbId) (name : String) (value : Int) (category date : String)
| deleteExpense (id : DbId)
| importFixedExpenses (newExpenses : List Expense)
| closeMonth
deriving DecidableEq

/-- One UI handler step on the in-memory state, handler by handler from
`App.tsx`: `handleCreateSpecificMonth` (create with `closed: false`, or just
select when the id exists), `handleSelectMonth`, `handleDeleteMonth`,
`handleResetMonth`, `handleSaveSalaries`, `handleAddExpense`,
`handleUpdateExpense`, `handleDeleteExpense`, `handleImportFixedExpenses`,
and `handleCloseMonth` (sets `closed: true` only when the balance is
positive). -/
def uiStep : UIOp → AppLocal → AppLocal
| UIOp.createSpecificMonth newId label imported sal1 sal2, st =>
  match st.months.find? fun m => decide (m.id = newId) with
  | some _ => { st with currentMonthId := newId }
  | none =>
    { months := st.months ++
        [{ id := newId, label := label, salary1 := sal1, salary2 := sal2,
           expenses := imported, closed := false }],
      currentMonthId := newId }
| UIOp.selectMonth id, st => { st with currentMonthId := id }
| UIOp.deleteMonth id, st =>
  let updated := st.months.filter fun m => decide (¬ m.id = id)
  if st.currentMonthId = id then { months := updated, currentMonthId := "" }
  else { st with months := updated }
| UIOp.resetMonth, st => updateCurrentMonth st monthReset
| UIOp.saveSalaries sal1 sal2, st =>
  updateCurrentMonth st fun m => { m with salary1 := sal1, salary2 := sal2 }
| UIOp.addExpense e, st =>
  updateCurrentMonth st fun m => { m with expenses := m.expenses ++ [e] }
| UIOp.updateExpenseFields editingId name value category date, st =>
  updateCurrentMonth st fun m =>
    { m with expenses := m.expenses.map fun e =>
        if e.id = editingId then expenseFieldsUpdate name value category date e else e }
| UIOp.deleteExpense id, st =>
  updateCurrentMonth st fun m =>
    { m with expenses := m.expenses.filter fun e => decide (¬ e.id = id) }
| UIOp.importFixedExpenses newExpenses, st =>
  updateCurrentMonth st fun m => { m with expenses := m.expenses ++ newExpenses }
| UIOp.closeMonth, st =>
  if (calculateTotals (st.months.find? fun m => decide (m.id = st.currentMonthId))).balance ≤ 0
  then st
  else updateCurrentMonth st fun m => { m with closed := true }

theorem updateCurrentMonth_closed (st : AppLocal) (f : MonthData → MonthData)
    (hid : ∀ m, (f m).id = m.id) (hcl : ∀ m, m.closed = true → (f m).closed = true)
    (monthId : String) (hall : ∀ m ∈ st.months, m.id = monthId → m.closed = true) :
    ∀ m' ∈ (updateCurrentMonth st f).months, m'.id = monthId → m'.closed = true := by
  intro m' hm' hid'
  obtain ⟨m0, hm0, hm0'⟩ := List.mem_map.mp hm'
  by_cases h : m0.id = st.currentMonthId
  · rw [if_pos h] at hm0'
    have h0 : m0.id = monthId := by rw [← hid', ← hm0', hid m0]
    exact hm0' ▸ hcl m0 (hall m0 hm0 h0)
  · rw [if_neg h] at hm0'
    exact hm0' ▸ hall m0 hm0 (hm0' ▸ hid')

/-- C7 (amended): for every month id and every state in which all months
carrying that id are closed (and at least one exists), every UI handler other
than the destructive month reset leaves every month carrying that id closed —
closing is one-way across the whole UI except `handleResetMonth`, which
(guarded only by a confirm dialog) wipes the current month and sets its
closed flag back to false. -/
theorem closed_one_way (op : UIOp) (st : AppLocal) (monthId : String)
    (hop : op ≠ UIOp.resetMonth)
    (hall : ∀ m ∈ st.months, m.id = monthId → m.closed = true)
    (hex : ∃ m ∈ st.months, m.id = monthId) :
    ∀ m' ∈ (uiStep op st).months, m'.id = monthId → m'.closed = true := by
  cases op with
  | createSpecificMonth newId label imported sal1 sal2 =>
    cases hfind : st.months.find? fun m => decide (m.id = newId) with
    | some r =>
      simp only [uiStep, hfind]
      exact hall
    | none =>
      simp only [uiStep, hfind]
      intro m' hm' hid'
      simp only [List.mem_append, List.mem_singleton] at hm'
      rcases hm' with hm' | hm'
      · exact hall m' hm' hid'
      · exfalso
        obtain ⟨m0, hm0, hm0'⟩ := hex
        have hne := List.find?_eq_none.mp hfind m0 hm0
        refine hne ?_
        have hmid : m'.id = newId := by rw [hm']
        simp [hm0', ← hid', hmid]
  | selectMonth id =>
    simp only [uiStep]
    exact hall
  | deleteMonth id =>
    intro m' hm' hid'
    simp only [uiStep] at hm'
    by_cases h : st.currentMonthId = id
    · rw [if_pos h] at hm'
      exact hall m' (List.mem_of_mem_filter hm') hid'
    · rw [if_neg h] at hm'
      exact hall m' (List.mem_of_mem_filter hm') hid'
  | resetMonth => exact absurd rfl hop
  | saveSalaries sal1 sal2 =>
    simp only [uiStep]
    apply updateCurrentMonth_closed st _ _ _ monthId hall
    · intro m; rfl
    · intro m h; exact h
  | addExpense e =>
    simp only [uiStep]
    apply updateCurrentMonth_closed st _ _ _ monthId hall
    · intro m; rfl
    · intro m h; exact h
  | updateExpenseFields editingId name value category date =>
    simp only [uiStep]
    apply updateCurrentMonth_closed st _ _ _ monthId hall
    · intro m; rfl
    · intro m h; exact h
  | deleteExpense id =>
    simp only [uiStep]
    apply updateCurrentMonth_closed st _ _ _ monthId hall
    · intro m; rfl
    · intro m h; exact h
  | importFixedExpenses newExpenses =>
    simp only [uiStep]
    apply updateCurrentMonth_closed st _ _ _ monthId hall
    · intro m; rfl
    · intro m h; exact h
  | closeMonth =>
    simp only [uiStep]
    by_cases h : (calculateTotals
        (st.months.find? fun m => decide (m.id = st.currentMonthId))).balance ≤ 0
    · rw [if_pos h]
      exact hall
    · rw [if_neg h]
      apply updateCurrentMonth_closed st _ _ _ monthId hall
      · intro m; rfl
      · intro m _; rfl

/-- C7 witness: a salary edit on a state whose only month is closed leaves
that month closed. -/
theorem closed_one_way_witness :
    ({ sampleClosedMonth with salary1 := 5, salary2 := 5 } : MonthData).closed = true :=
  closed_one_way (UIOp.saveSalaries 5 5) (AppLocal.mk [sampleClosedMonth] "2025-01")
    "2025-01" (by decide) (by decide) (by decide)
    { sampleClosedMonth with salary1 := 5, salary2 := 5 } (by decide) (by decide)

/-- C7 counterexample: `handleResetMonth` on a closed current month sets its
closed flag back to false — a UI-reachable operation does reopen a closed
month, refuting the claim as stated. -/
theorem closed_reset_counterexample :
    (∀ m ∈ (AppLocal.mk [sampleClosedMonth] "2025-01").months, m.closed = true) ∧
    ∃ m' ∈ (uiStep UIOp.resetMonth (AppLocal.mk [sampleClosedMonth] "2025-01")).months,
      m'.id = sampleClosedMonth.id ∧ m'.closed = false := by
  decide

/-- The timeline semantics of the `debounce` helper in `App.tsx` (lines
21-30): each call at time `t` clears the pending timer and schedules the
wrapped function at `t + wait`; a pending timer fires unless a later call
arrives strictly before its due time. Given the time-ordered list of calls,
each paired with its arguments (for the debounced save: the user id and the
month snapshot), this returns the executions the timers produce, each with
its firing time and arguments. -/
def debounceExecs (wait : Nat) :
    List (Nat × (String × MonthData)) → List (Nat × (String × MonthData))
| [] => []
| [c] => [(c.1 + wait, c.2)]
| c :: c2 :: rest =>
  if c2.1 < c.1 + wait then debounceExecs wait (c2 :: rest)
  else (c.1 + wait, c.2) :: debounceExecs wait (c2 :: rest)

/-- C9: if the debounced save is triggered N ≥ 1 times with every consecutive
gap strictly below the quiet period, the wrapped action executes exactly
once, at the last trigger's time plus the quiet period, with the last
trigger's arguments. -/
theorem debounce_spec (wait : Nat) (calls : List (Nat × (String × MonthData)))
    (h : calls ≠ []) (hgap : List.Chain' (fun a b => b.1 < a.1 + wait) calls) :
    debounceExecs wait calls = [((calls.getLast h).1 + wait, (calls.getLast h).2)] := by
  induction calls with
  | nil => exact absurd rfl h
  | cons c rest ih =>
    cases rest with
    | nil => simp [debounceExecs]
    | cons c2 rest2 =>
      have hlt : c2.1 < c.1 + wait := (List.chain'_cons.mp hgap).1
      have hrec := ih (by simp) (List.chain'_cons.mp hgap).2
      show debounceExecs wait (c :: c2 :: rest2) = _
      rw [debounceExecs, if_pos hlt, hrec]
      rw [List.getLast_cons (by simp : c2 :: rest2 ≠ [])]

/-- C9 witness: triggers at 0ms, 500ms and 1000ms with a 2000ms quiet period
coalesce into one execution at 3000ms carrying the 1000ms snapshot. -/
theorem debounce_spec_witness :
    debounceExecs 2000
      [(0, ("u", sampleOpenMonth)), (500, ("u", sampleOpenMonth)),
        (1000, ("u", sampleClosedMonth))]
      = [(3000, ("u", sampleClosedMonth))] :=
  (debounce_spec 2000
    [(0, ("u", sampleOpenMonth)), (500, ("u", sampleOpenMonth)),
      (1000, ("u", sampleClosedMonth))]
    (by decide) (by norm_num [List.chain'_cons])).trans (by decide)

end Casal
